import Mathlib

/-!
Shallow embedding of the docket task tracker core: the data model and the
storage/service operations of src/core/db.rs and src/core/service.rs (the
position-based ordering scheme, the swap-based reorder transaction, and the
completion lifecycle), with the claims about them settled as theorems below.

Conventions of the embedding:
- Rust strings are lists of Unicode scalar values; str::len is UTF-8 byte
  length; str::trim strips the Unicode White_Space code points.
- chrono timestamps are natural numbers supplied by the caller (the value of
  Utc::now() at the call).
- SQLite rows are Lean structures; a table is the list of its rows; UPDATE
  and DELETE act on every row matching the WHERE clause; fetch_one on a miss
  is the NotFound error; INSERT draws fresh ids from a counter.
- anyhow errors are classified by the taxonomy the service exposes: a missing
  row is notFound, a bail on bad input is validationError with the exact
  message string of the source, a bail on a structurally disallowed call is
  invalidOperation with the exact message string of the source; a failed
  storage transaction is storageFailure.
- An operation returning Except Err Db mutates nothing on the error path
  (mirroring the source, where every bail and fetch failure happens before
  any UPDATE is issued); the persisted state after an error is the input
  state.
-/

/-- Unicode string as the list of its scalar values (Rust String / str). -/
abbrev Ustr := List Nat

/-- Rust char::is_whitespace: membership in the Unicode White_Space set. -/
def isWhitespaceChar (c : Nat) : Bool :=
  (0x09 ≤ c && c ≤ 0x0D) || c == 0x20 || c == 0x85 || c == 0xA0 ||
  c == 0x1680 || (0x2000 ≤ c && c ≤ 0x200A) || c == 0x2028 || c == 0x2029 ||
  c == 0x202F || c == 0x205F || c == 0x3000

/-- Rust str::trim: remove leading and trailing whitespace. -/
def trimStr (s : Ustr) : Ustr :=
  ((s.dropWhile isWhitespaceChar).reverse.dropWhile isWhitespaceChar).reverse

/-- Byte count of the UTF-8 encoding of one Unicode scalar value. -/
def utf8CharLen (c : Nat) : Nat :=
  if c < 0x80 then 1 else if c < 0x800 then 2 else if c < 0x10000 then 3 else 4

/-- Rust str::len: length of the string in UTF-8 bytes. -/
def strByteLen (s : Ustr) : Nat := (s.map utf8CharLen).sum

/-- Row of the projects table (struct Project in src/core/models.rs as used
by src/core/db.rs). -/
structure Project where
  id : Nat
  name : Ustr
  description : Option Ustr
  created_at : Nat
  archived_at : Option Nat
deriving Repr, DecidableEq

/-- Row of the todos table (struct Todo in src/core/models.rs as used by
src/core/db.rs). -/
structure Todo where
  id : Nat
  project_id : Nat
  description : Ustr
  details : Option Ustr
  created_at : Nat
  completed_at : Option Nat
  position : Int
deriving Repr, DecidableEq

/-- The SQLite database: both tables plus the rowid counters that INSERT
draws fresh ids from. -/
structure Db where
  projects : List Project
  todos : List Todo
  nextProjectId : Nat
  nextTodoId : Nat
deriving Repr, DecidableEq

/-- The freshly created store, before any operation. -/
def emptyDb : Db := { projects := [], todos := [], nextProjectId := 1, nextTodoId := 1 }

/-- Error taxonomy exposed to callers (section 7 of the design): NotFound for
a missing row, ValidationError and InvalidOperation carrying the exact bail
message of the source, storageFailure for a failed storage transaction. -/
inductive Err where
  | notFound
  | validationError (msg : String)
  | invalidOperation (msg : String)
  | storageFailure
deriving Repr, DecidableEq

deriving instance DecidableEq for Except

/-- Database.get_todo: SELECT * FROM todos WHERE id = ?, fetch_one. -/
def getTodo (db : Db) (id : Nat) : Except Err Todo :=
  match db.todos.find? (fun t => t.id == id) with
  | some t => .ok t
  | none => .error .notFound

/-- Database.get_project: SELECT * FROM projects WHERE id = ?, fetch_one. -/
def getProject (db : Db) (id : Nat) : Except Err Project :=
  match db.projects.find? (fun p => p.id == id) with
  | some p => .ok p
  | none => .error .notFound

/-- Rows of the todos table matching project_id = ? AND completed_at IS NULL. -/
def activeTodos (db : Db) (pid : Nat) : List Todo :=
  db.todos.filter (fun t => t.project_id == pid && t.completed_at.isNone)

/-- SQL MAX over a column: none on an empty set of rows. -/
def listMaxInt : List Int → Option Int
  | [] => none
  | x :: xs => some (xs.foldl max x)

/-- SELECT COALESCE(MAX(position), 0) FROM todos WHERE project_id = ? AND
completed_at IS NULL, as issued by create_todo and uncomplete_todo. -/
def maxActivePos (db : Db) (pid : Nat) : Int :=
  (listMaxInt ((activeTodos db pid).map (fun t => t.position))).getD 0

/-- Database.create_todo: computes max_position + 1 for the new row, inserts
it with a fresh id, NULL details, NULL completed_at, and returns the record. -/
def db_create_todo (db : Db) (pid : Nat) (descr : Ustr) (now : Nat) : Db × Todo :=
  let newPosition := maxActivePos db pid + 1
  let t : Todo :=
    { id := db.nextTodoId, project_id := pid, description := descr,
      details := none, created_at := now, completed_at := none,
      position := newPosition }
  ({ db with todos := db.todos ++ [t], nextTodoId := db.nextTodoId + 1 }, t)

/-- Comparison realizing the ORDER BY of list_todos with include_completed:
first the completed flag (active rows first), then position for active rows
and the constant 0 for completed rows, then completed_at DESC. -/
def listLE (a b : Todo) : Bool :=
  match a.completed_at, b.completed_at with
  | none, none => decide (a.position ≤ b.position)
  | none, some _ => true
  | some _, none => false
  | some x, some y => decide (y ≤ x)

/-- Database.list_todos: active rows of the project ordered by position when
include_completed is false; all rows of the project under the composite
ORDER BY realized by listLE when it is true. -/
def db_list_todos (db : Db) (pid : Nat) (includeCompleted : Bool) : List Todo :=
  if includeCompleted then
    (db.todos.filter (fun t => t.project_id == pid)).mergeSort listLE
  else
    (activeTodos db pid).mergeSort (fun a b => decide (a.position ≤ b.position))

/-- Database.complete_todo: UPDATE todos SET completed_at = now, position = 0
WHERE id = ?. An UPDATE matching no row still succeeds. -/
def db_complete_todo (db : Db) (id : Nat) (now : Nat) : Db :=
  { db with todos := db.todos.map (fun t =>
      if t.id == id then { t with completed_at := some now, position := 0 } else t) }

/-- Database.uncomplete_todo: fetch the todo (NotFound on a miss), read the
max active position of its project, then UPDATE the row to completed_at =
NULL and position = max + 1. -/
def db_uncomplete_todo (db : Db) (id : Nat) : Except Err Db :=
  match getTodo db id with
  | .error e => .error e
  | .ok todo =>
    .ok { db with todos := db.todos.map (fun t =>
        if t.id == id then
          { t with completed_at := none, position := maxActivePos db todo.project_id + 1 }
        else t) }

/-- Database.delete_todo: DELETE FROM todos WHERE id = ?. A DELETE matching
no row still succeeds. -/
def db_delete_todo (db : Db) (id : Nat) : Db :=
  { db with todos := db.todos.filter (fun t => !(t.id == id)) }

/-- Candidate kept by ORDER BY position {DESC or ASC} LIMIT 1: fold keeping
the strictly better row (better a b means a is preferred to b). -/
def selectBest (better : Int → Int → Bool) : List Todo → Option Todo
  | [] => none
  | t :: ts =>
    match selectBest better ts with
    | none => some t
    | some u => some (if better u.position t.position then u else t)

/-- Swap-target query of reorder_todo: among active rows of the project with
position strictly below (direction < 0) or strictly above (otherwise) the
given position, the row first by position DESC respectively ASC; the SELECT
returns its id and position. -/
def swapTarget (db : Db) (pid : Nat) (pos : Int) (direction : Int) : Option (Nat × Int) :=
  let best :=
    if direction < 0 then
      selectBest (fun a b => decide (b < a))
        (db.todos.filter (fun t =>
          t.project_id == pid && t.completed_at.isNone && decide (t.position < pos)))
    else
      selectBest (fun a b => decide (a < b))
        (db.todos.filter (fun t =>
          t.project_id == pid && t.completed_at.isNone && decide (pos < t.position)))
  best.map (fun t => (t.id, t.position))

/-- Single UPDATE todos SET position = ? WHERE id = ? statement of the
reorder transaction. -/
structure UpdateStep where
  todoId : Nat
  newPos : Int
deriving Repr, DecidableEq

/-- Effect of one UPDATE step on the store. -/
def applyStep (db : Db) (s : UpdateStep) : Db :=
  { db with todos := db.todos.map (fun t =>
      if t.id == s.todoId then { t with position := s.newPos } else t) }

/-- The three UPDATE statements of the reorder transaction, in the order the
source issues them: current row to the sentinel -1, then the current row's
original position onto the swap row, then the swap row's position onto the
current row. -/
def reorderTxSteps (currentId : Nat) (currentPos : Int) (swapId : Nat) (swapPos : Int) :
    List UpdateStep :=
  [⟨currentId, -1⟩, ⟨swapId, currentPos⟩, ⟨currentId, swapPos⟩]

/-- Effect of a fully committed transaction: the steps applied in order. -/
def applyTxAll (db : Db) (steps : List UpdateStep) : Db := steps.foldl applyStep db

/-- Transaction runner with an injected failure point, mirroring the
begin/commit scope of reorder_todo under sqlx/SQLite semantics: failAt none
is the failure-free run; failAt i with i < length is a failure of step i and
failAt = length a failure of the commit itself, and any failure rolls the
whole transaction back. -/
def runTx (db : Db) (steps : List UpdateStep) (failAt : Option Nat) : Except Err Db :=
  match failAt with
  | none => .ok (applyTxAll db steps)
  | some i => if i ≤ steps.length then .error .storageFailure else .ok (applyTxAll db steps)

/-- State the store holds after the transaction returns: the committed state
on success, the rolled-back (original) state on failure. -/
def persistedAfterTx (db : Db) (steps : List UpdateStep) (failAt : Option Nat) : Db :=
  match runTx db steps failAt with
  | .ok db2 => db2
  | .error _ => db

/-- Database.reorder_todo: fetch the todo (NotFound on a miss), bail on a
completed todo, query the swap target, return Ok unchanged at a boundary,
otherwise run the three-step transaction (failure-free path). The direction
argument is the i8 of the source: -1 for up, 1 for down. -/
def db_reorder_todo (db : Db) (todoId : Nat) (direction : Int) : Except Err Db :=
  match getTodo db todoId with
  | .error e => .error e
  | .ok currentTodo =>
    if currentTodo.completed_at.isSome then
      .error (Err.invalidOperation "Cannot reorder completed todos")
    else
      match swapTarget db currentTodo.project_id currentTodo.position direction with
      | none => .ok db
      | some (swapId, swapPosition) =>
        .ok (applyTxAll db (reorderTxSteps currentTodo.id currentTodo.position swapId swapPosition))

/-- The UPDATE statements a reorder_todo call issues inside its transaction:
none when the call errors out or no-ops before reaching the transaction. -/
def reorderTrace (db : Db) (todoId : Nat) (direction : Int) : Option (List UpdateStep) :=
  match getTodo db todoId with
  | .error _ => none
  | .ok t =>
    if t.completed_at.isSome then none
    else
      match swapTarget db t.project_id t.position direction with
      | none => none
      | some (swapId, swapPosition) => some (reorderTxSteps t.id t.position swapId swapPosition)

/-- Database.create_project: INSERT with a fresh id, returning the record. -/
def db_create_project (db : Db) (name : Ustr) (descr : Option Ustr) (now : Nat) : Db × Project :=
  let p : Project :=
    { id := db.nextProjectId, name := name, description := descr,
      created_at := now, archived_at := none }
  ({ db with projects := db.projects ++ [p], nextProjectId := db.nextProjectId + 1 }, p)

/-- Database.archive_project: UPDATE projects SET archived_at = now WHERE id = ?. -/
def db_archive_project (db : Db) (id : Nat) (now : Nat) : Db :=
  { db with projects := db.projects.map (fun p =>
      if p.id == id then { p with archived_at := some now } else p) }

/-- Database.unarchive_project: UPDATE projects SET archived_at = NULL WHERE id = ?. -/
def db_unarchive_project (db : Db) (id : Nat) : Db :=
  { db with projects := db.projects.map (fun p =>
      if p.id == id then { p with archived_at := none } else p) }

/-- Database.delete_project: DELETE FROM projects WHERE id = ?, with the
schema cascading the delete to the todos owned by the project. -/
def db_delete_project (db : Db) (id : Nat) : Db :=
  { db with projects := db.projects.filter (fun p => !(p.id == id)),
            todos := db.todos.filter (fun t => !(t.project_id == id)) }

/-- Database.update_project_description: UPDATE projects SET description = ?
WHERE id = ?. -/
def db_update_project_description (db : Db) (id : Nat) (descr : Option Ustr) : Db :=
  { db with projects := db.projects.map (fun p =>
      if p.id == id then { p with description := descr } else p) }

/-- Database.update_project_name: UPDATE projects SET name = ? WHERE id = ?. -/
def db_update_project_name (db : Db) (id : Nat) (name : Ustr) : Db :=
  { db with projects := db.projects.map (fun p =>
      if p.id == id then { p with name := name } else p) }

/-- Database.update_todo_details: UPDATE todos SET details = ? WHERE id = ?. -/
def db_update_todo_details (db : Db) (id : Nat) (details : Option Ustr) : Db :=
  { db with todos := db.todos.map (fun t =>
      if t.id == id then { t with details := details } else t) }

/-- Database.update_todo: UPDATE todos SET description = ? WHERE id = ?. -/
def db_update_todo (db : Db) (id : Nat) (descr : Ustr) : Db :=
  { db with todos := db.todos.map (fun t =>
      if t.id == id then { t with description := descr } else t) }

/-- DocketService.create_project: trim the name, bail on empty or on byte
length over 255, then insert with a NULL description. -/
def svc_create_project (db : Db) (name : Ustr) (now : Nat) : Except Err (Db × Project) :=
  let name := trimStr name
  if name.isEmpty then
    .error (.validationError "Project name cannot be empty")
  else if strByteLen name > 255 then
    .error (.validationError "Project name is too long (max 255 characters)")
  else
    .ok (db_create_project db name none now)

/-- DocketService.update_project_description: verify the project exists,
normalize the optional text to absent when empty after trim, then update. -/
def svc_update_project_description (db : Db) (id : Nat) (descr : Option Ustr) :
    Except Err Db :=
  match getProject db id with
  | .error e => .error e
  | .ok _ =>
    .ok (db_update_project_description db id ((descr.map trimStr).filter (fun d => !d.isEmpty)))

/-- DocketService.update_project_name: verify the project exists, trim, bail
on empty or on byte length over 255, then update. -/
def svc_update_project_name (db : Db) (id : Nat) (name : Ustr) : Except Err Db :=
  match getProject db id with
  | .error e => .error e
  | .ok _ =>
    let name := trimStr name
    if name.isEmpty then
      .error (.validationError "Project name cannot be empty")
    else if strByteLen name > 255 then
      .error (.validationError "Project name is too long (max 255 characters)")
    else
      .ok (db_update_project_name db id name)

/-- DocketService.archive_project: verify the project exists, then archive. -/
def svc_archive_project (db : Db) (id : Nat) (now : Nat) : Except Err Db :=
  match getProject db id with
  | .error e => .error e
  | .ok _ => .ok (db_archive_project db id now)

/-- DocketService.unarchive_project: verify the project exists, then clear
the archival timestamp. -/
def svc_unarchive_project (db : Db) (id : Nat) : Except Err Db :=
  match getProject db id with
  | .error e => .error e
  | .ok _ => .ok (db_unarchive_project db id)

/-- DocketService.delete_project: verify the project exists, then delete. -/
def svc_delete_project (db : Db) (id : Nat) : Except Err Db :=
  match getProject db id with
  | .error e => .error e
  | .ok _ => .ok (db_delete_project db id)

/-- DocketService.create_todo: trim the description, bail on empty or on byte
length over 500, verify the project exists, then insert. -/
def svc_create_todo (db : Db) (pid : Nat) (descr : Ustr) (now : Nat) :
    Except Err (Db × Todo) :=
  let descr := trimStr descr
  if descr.isEmpty then
    .error (.validationError "Todo description cannot be empty")
  else if strByteLen descr > 500 then
    .error (.validationError "Todo description is too long (max 500 characters)")
  else
    match getProject db pid with
    | .error e => .error e
    | .ok _ => .ok (db_create_todo db pid descr now)

/-- DocketService.toggle_todo: fetch the todo, then uncomplete it when it is
completed and complete it otherwise. -/
def svc_toggle_todo (db : Db) (id : Nat) (now : Nat) : Except Err Db :=
  match getTodo db id with
  | .error e => .error e
  | .ok todo =>
    if todo.completed_at.isSome then
      db_uncomplete_todo db id
    else
      .ok (db_complete_todo db id now)

/-- DocketService.delete_todo: a thin pass-through to the storage delete,
with no existence check of its own. -/
def svc_delete_todo (db : Db) (id : Nat) : Except Err Db :=
  .ok (db_delete_todo db id)

/-- DocketService.update_todo_details: verify the todo exists, normalize the
optional text to absent when empty after trim, then update. -/
def svc_update_todo_details (db : Db) (id : Nat) (details : Option Ustr) :
    Except Err Db :=
  match getTodo db id with
  | .error e => .error e
  | .ok _ =>
    .ok (db_update_todo_details db id ((details.map trimStr).filter (fun d => !d.isEmpty)))

/-- DocketService.update_todo: verify the todo exists, trim the description,
bail on empty or on byte length over 500, then update. -/
def svc_update_todo (db : Db) (id : Nat) (descr : Ustr) : Except Err Db :=
  match getTodo db id with
  | .error e => .error e
  | .ok _ =>
    let descr := trimStr descr
    if descr.isEmpty then
      .error (.validationError "Todo description cannot be empty")
    else if strByteLen descr > 500 then
      .error (.validationError "Todo description is too long (max 500 characters)")
    else
      .ok (db_update_todo db id descr)

/-- DocketService.move_todo_up: reorder with direction -1. -/
def svc_move_todo_up (db : Db) (id : Nat) : Except Err Db :=
  db_reorder_todo db id (-1)

/-- DocketService.move_todo_down: reorder with direction 1. -/
def svc_move_todo_down (db : Db) (id : Nat) : Except Err Db :=
  db_reorder_todo db id 1

/-- Position discipline the spec states for every project: active todos of a
project carry pairwise distinct positive positions, completed todos carry the
sentinel position 0. -/
def PosOk (db : Db) : Prop :=
  (∀ t ∈ db.todos, t.completed_at = none → 0 < t.position) ∧
  (∀ t ∈ db.todos, t.completed_at ≠ none → t.position = 0) ∧
  (∀ t ∈ db.todos, ∀ u ∈ db.todos, t.completed_at = none → u.completed_at = none →
    t.project_id = u.project_id → t.id ≠ u.id → t.position ≠ u.position)

/-- Well-formedness the rowid counter gives for free: ids of todo rows are
pairwise distinct and below the next id to be handed out. -/
def IdsOk (db : Db) : Prop :=
  (db.todos.map (fun t => t.id)).Nodup ∧ ∀ t ∈ db.todos, t.id < db.nextTodoId

/-- Invariant maintained by every storage operation. -/
def StoreInv (db : Db) : Prop := IdsOk db ∧ PosOk db

/-- Todo-lifecycle operations of the storage layer, as invoked by a caller
with arbitrary arguments. -/
inductive Op where
  | createTodo (pid : Nat) (descr : Ustr) (now : Nat)
  | completeTodo (id : Nat) (now : Nat)
  | uncompleteTodo (id : Nat)
  | reorderTodo (id : Nat) (direction : Int)
  | deleteTodo (id : Nat)
deriving Repr

/-- Run one operation against the store; a failing operation (a bail or a
missing row, both raised before any UPDATE in the source) leaves the store
untouched. -/
def applyOp (db : Db) (op : Op) : Db :=
  match op with
  | .createTodo pid d now => (db_create_todo db pid d now).1
  | .completeTodo id now => db_complete_todo db id now
  | .uncompleteTodo id =>
    match db_uncomplete_todo db id with
    | .ok db2 => db2
    | .error _ => db
  | .reorderTodo id dir =>
    match db_reorder_todo db id dir with
    | .ok db2 => db2
    | .error _ => db
  | .deleteTodo id => db_delete_todo db id

/-- Run a sequence of operations from a starting store. -/
def applyOps (db : Db) (ops : List Op) : Db := ops.foldl applyOp db

/-- Three-step swap in the order the spec text lists the steps (source to the
sentinel, then the target's old position onto the source, then the source's
original position onto the target); declared only to compare against
reorderTxSteps, the order the source actually issues. -/
def reorderTxStepsSpecOrder (currentId : Nat) (currentPos : Int) (swapId : Nat)
    (swapPos : Int) : List UpdateStep :=
  [⟨currentId, -1⟩, ⟨currentId, swapPos⟩, ⟨swapId, currentPos⟩]

/-- Sample project for concrete scenarios. -/
def projectOne : Project :=
  { id := 1, name := [0x70], description := none, created_at := 0, archived_at := none }

/-- Scenario todo A: active, position 1. -/
def todoA : Todo :=
  { id := 1, project_id := 1, description := [0x61], details := none,
    created_at := 0, completed_at := none, position := 1 }

/-- Scenario todo B: active, position 2. -/
def todoB : Todo :=
  { id := 2, project_id := 1, description := [0x62], details := none,
    created_at := 1, completed_at := none, position := 2 }

/-- Scenario todo C: active, position 3. -/
def todoC : Todo :=
  { id := 3, project_id := 1, description := [0x63], details := none,
    created_at := 2, completed_at := none, position := 3 }

/-- Scenario store of section 8 of the spec: one project with active todos
A, B, C at positions 1, 2, 3. -/
def dbScenario : Db :=
  { projects := [projectOne], todos := [todoA, todoB, todoC],
    nextProjectId := 2, nextTodoId := 4 }

/-- Scenario todo B after the swap with C: position 3. -/
def todoBMoved : Todo := { todoB with position := 3 }

/-- Scenario todo C after the swap with B: position 2. -/
def todoCMoved : Todo := { todoC with position := 2 }

/-- Scenario store after moving C up: B and C have exchanged positions. -/
def dbScenarioAfter : Db :=
  { projects := [projectOne], todos := [todoA, todoBMoved, todoCMoved],
    nextProjectId := 2, nextTodoId := 4 }

/-- Sample completed todo (position already reset to the sentinel 0). -/
def todoDone : Todo :=
  { id := 1, project_id := 1, description := [0x61], details := none,
    created_at := 0, completed_at := some 7, position := 0 }

/-- Sample active todo at position 1 sharing the project of todoDone. -/
def todoAlive : Todo :=
  { id := 2, project_id := 1, description := [0x62], details := none,
    created_at := 1, completed_at := none, position := 1 }

/-- Store holding one completed todo and one active todo, for exercising the
completed-todo and uncomplete paths. -/
def dbOneDone : Db :=
  { projects := [projectOne], todos := [todoDone, todoAlive],
    nextProjectId := 2, nextTodoId := 3 }

/-- Store with two active todos at positions 1 and 2, for tracing the reorder
transaction. -/
def dbTwoActive : Db :=
  { projects := [projectOne], todos := [todoA, todoB],
    nextProjectId := 2, nextTodoId := 3 }

/-! Shared lemmas about the embedding, used by several of the claim theorems
below. -/

theorem le_foldl_max (l : List Int) (a : Int) : a ≤ l.foldl max a := by
  induction l generalizing a with
  | nil => simp
  | cons x xs ih => exact le_trans (le_max_left a x) (ih (max a x))

theorem mem_le_foldl_max {x : Int} {l : List Int} (a : Int) (hx : x ∈ l) :
    x ≤ l.foldl max a := by
  induction l generalizing a with
  | nil => cases hx
  | cons y ys ih =>
    rw [List.foldl_cons]
    rcases List.mem_cons.mp hx with h | h
    · subst h
      exact le_trans (le_max_right a x) (le_foldl_max ys (max a x))
    · exact ih (max a y) h

theorem mem_activeTodos {db : Db} {pid : Nat} {t : Todo} :
    t ∈ activeTodos db pid ↔
      t ∈ db.todos ∧ t.project_id = pid ∧ t.completed_at = none := by
  simp [activeTodos, List.mem_filter, Option.isNone_iff_eq_none, and_assoc]

theorem maxActivePos_ge {db : Db} {pid : Nat} {t : Todo} (ht : t ∈ activeTodos db pid) :
    t.position ≤ maxActivePos db pid := by
  have hmem : t.position ∈ (activeTodos db pid).map (fun t => t.position) :=
    List.mem_map_of_mem _ ht
  unfold maxActivePos
  cases hlist : (activeTodos db pid).map (fun t => t.position) with
  | nil => rw [hlist] at hmem; cases hmem
  | cons x xs =>
    rw [hlist] at hmem
    simp only [listMaxInt, Option.getD_some]
    rcases List.mem_cons.mp hmem with h | h
    · rw [h]; exact le_foldl_max xs x
    · exact mem_le_foldl_max x h

theorem maxActivePos_nonneg {db : Db} {pid : Nat}
    (hpos : ∀ t ∈ db.todos, t.completed_at = none → 0 < t.position) :
    0 ≤ maxActivePos db pid := by
  unfold maxActivePos
  cases hlist : (activeTodos db pid).map (fun t => t.position) with
  | nil => simp [listMaxInt]
  | cons x xs =>
    simp only [listMaxInt, Option.getD_some]
    have hx : x ∈ (activeTodos db pid).map (fun t => t.position) := by
      rw [hlist]; exact List.mem_cons_self x xs
    obtain ⟨t, ht, hxt⟩ := List.mem_map.mp hx
    have hmem := mem_activeTodos.mp ht
    have h0 : 0 < t.position := hpos t hmem.1 hmem.2.2
    calc (0 : Int) ≤ x := by rw [← hxt]; exact le_of_lt h0
    _ ≤ xs.foldl max x := le_foldl_max xs x

theorem getTodo_ok {db : Db} {id : Nat} {t : Todo} (h : getTodo db id = .ok t) :
    t ∈ db.todos ∧ t.id = id := by
  unfold getTodo at h
  cases hfind : db.todos.find? (fun t => t.id == id) with
  | none => rw [hfind] at h; cases h
  | some u =>
    rw [hfind] at h
    cases h
    refine ⟨List.mem_of_find?_eq_some hfind, ?_⟩
    have hp := List.find?_some hfind
    simp at hp
    exact hp

theorem getTodo_mem {db : Db} {id : Nat} {t : Todo} (ht : t ∈ db.todos) (hid : t.id = id) :
    ∃ u, getTodo db id = .ok u ∧ u.id = id ∧ u ∈ db.todos := by
  unfold getTodo
  cases hfind : db.todos.find? (fun t => t.id == id) with
  | none =>
    exfalso
    have := List.find?_eq_none.mp hfind t ht
    simp [hid] at this
  | some u =>
    refine ⟨u, rfl, ?_, List.mem_of_find?_eq_some hfind⟩
    have hp := List.find?_some hfind
    simp at hp
    exact hp

theorem todos_id_inj {db : Db} (hnd : (db.todos.map (fun t => t.id)).Nodup)
    {a b : Todo} (ha : a ∈ db.todos) (hb : b ∈ db.todos) (hid : a.id = b.id) : a = b :=
  List.inj_on_of_nodup_map hnd ha hb hid

theorem ids_map_of_id_preserving (l : List Todo) (f : Todo → Todo)
    (hf : ∀ t, (f t).id = t.id) :
    (l.map f).map (fun t => t.id) = l.map (fun t => t.id) := by
  rw [List.map_map]
  exact List.map_congr_left (fun a _ => hf a)

theorem selectBest_mem {better : Int → Int → Bool} {l : List Todo} {u : Todo}
    (h : selectBest better l = some u) : u ∈ l := by
  induction l generalizing u with
  | nil => cases h
  | cons t ts ih =>
    simp only [selectBest] at h
    cases hrec : selectBest better ts with
    | none =>
      rw [hrec] at h
      injection h with h1
      rw [← h1]
      exact List.mem_cons_self t ts
    | some v =>
      rw [hrec] at h
      injection h with h1
      by_cases hb : better v.position t.position
      · rw [if_pos hb] at h1
        rw [← h1]
        exact List.mem_cons_of_mem t (ih hrec)
      · rw [if_neg hb] at h1
        rw [← h1]
        exact List.mem_cons_self t ts

theorem selectBest_desc {l : List Todo} {u : Todo}
    (h : selectBest (fun a b => decide (b < a)) l = some u) :
    ∀ x ∈ l, x.position ≤ u.position := by
  induction l generalizing u with
  | nil => cases h
  | cons t ts ih =>
    intro x hx
    simp only [selectBest] at h
    cases hrec : selectBest (fun a b => decide (b < a)) ts with
    | none =>
      rw [hrec] at h
      injection h with h1
      cases ts with
      | nil =>
        rcases List.mem_cons.mp hx with hxt | hxts
        · rw [hxt, h1]
        · cases hxts
      | cons a as => simp only [selectBest] at hrec; cases hsel : selectBest (fun a b => decide (b < a)) as <;> rw [hsel] at hrec <;> cases hrec
    | some v =>
      rw [hrec] at h
      injection h with h1
      by_cases hb : (decide (t.position < v.position) : Bool)
      · rw [if_pos hb] at h1
        rcases List.mem_cons.mp hx with hxt | hxts
        · rw [hxt, ← h1]
          exact le_of_lt (of_decide_eq_true hb)
        · rw [← h1]; exact ih hrec x hxts
      · rw [if_neg hb] at h1
        have hvt : v.position ≤ t.position := by
          have := of_decide_eq_false (Bool.of_not_eq_true hb)
          omega
        rcases List.mem_cons.mp hx with hxt | hxts
        · rw [hxt, ← h1]
        · rw [← h1]
          exact le_trans (ih hrec x hxts) hvt

theorem selectBest_asc {l : List Todo} {u : Todo}
    (h : selectBest (fun a b => decide (a < b)) l = some u) :
    ∀ x ∈ l, u.position ≤ x.position := by
  induction l generalizing u with
  | nil => cases h
  | cons t ts ih =>
    intro x hx
    simp only [selectBest] at h
    cases hrec : selectBest (fun a b => decide (a < b)) ts with
    | none =>
      rw [hrec] at h
      injection h with h1
      cases ts with
      | nil =>
        rcases List.mem_cons.mp hx with hxt | hxts
        · rw [hxt, h1]
        · cases hxts
      | cons a as => simp only [selectBest] at hrec; cases hsel : selectBest (fun a b => decide (a < b)) as <;> rw [hsel] at hrec <;> cases hrec
    | some v =>
      rw [hrec] at h
      injection h with h1
      by_cases hb : (decide (v.position < t.position) : Bool)
      · rw [if_pos hb] at h1
        rcases List.mem_cons.mp hx with hxt | hxts
        · rw [hxt, ← h1]
          exact le_of_lt (of_decide_eq_true hb)
        · rw [← h1]; exact ih hrec x hxts
      · rw [if_neg hb] at h1
        have hvt : t.position ≤ v.position := by
          have := of_decide_eq_false (Bool.of_not_eq_true hb)
          omega
        rcases List.mem_cons.mp hx with hxt | hxts
        · rw [hxt, ← h1]
        · rw [← h1]
          exact le_trans hvt (ih hrec x hxts)

theorem swapTarget_some {db : Db} {pid : Nat} {pos : Int} {dir : Int} {uid : Nat}
    {upos : Int} (h : swapTarget db pid pos dir = some (uid, upos)) :
    ∃ u ∈ db.todos, u.id = uid ∧ u.position = upos ∧ u.project_id = pid ∧
      u.completed_at = none ∧
      (dir < 0 → upos < pos ∧ ∀ c ∈ db.todos, c.completed_at = none →
        c.project_id = pid → c.position < pos → c.position ≤ upos) ∧
      (¬ dir < 0 → pos < upos ∧ ∀ c ∈ db.todos, c.completed_at = none →
        c.project_id = pid → pos < c.position → upos ≤ c.position) := by
  by_cases hdir : dir < 0
  · simp only [swapTarget, if_pos hdir] at h
    obtain ⟨u, hsel, hu⟩ := Option.map_eq_some'.mp h
    have huid : u.id = uid ∧ u.position = upos := by
      simpa [Prod.ext_iff] using hu
    have hmemf := selectBest_mem hsel
    have hmem := List.mem_filter.mp hmemf
    have hprops : u.project_id = pid ∧ u.completed_at = none ∧ u.position < pos := by
      have h2 := hmem.2
      simp [Option.isNone_iff_eq_none] at h2
      tauto
    refine ⟨u, hmem.1, huid.1, huid.2, hprops.1, hprops.2.1, ?_, fun hc => absurd hdir hc⟩
    intro _
    refine ⟨huid.2 ▸ hprops.2.2, ?_⟩
    intro c hc hcact hcpid hcpos
    have hcf : c ∈ db.todos.filter (fun t =>
        t.project_id == pid && t.completed_at.isNone && decide (t.position < pos)) := by
      rw [List.mem_filter]
      refine ⟨hc, ?_⟩
      simp [hcact, hcpid, hcpos, Option.isNone_iff_eq_none]
    have := selectBest_desc hsel c hcf
    omega
  · simp only [swapTarget, if_neg hdir] at h
    obtain ⟨u, hsel, hu⟩ := Option.map_eq_some'.mp h
    have huid : u.id = uid ∧ u.position = upos := by
      simpa [Prod.ext_iff] using hu
    have hmemf := selectBest_mem hsel
    have hmem := List.mem_filter.mp hmemf
    have hprops : u.project_id = pid ∧ u.completed_at = none ∧ pos < u.position := by
      have h2 := hmem.2
      simp [Option.isNone_iff_eq_none] at h2
      tauto
    refine ⟨u, hmem.1, huid.1, huid.2, hprops.1, hprops.2.1, fun hc => absurd hc hdir, ?_⟩
    intro _
    refine ⟨huid.2 ▸ hprops.2.2, ?_⟩
    intro c hc hcact hcpid hcpos
    have hcf : c ∈ db.todos.filter (fun t =>
        t.project_id == pid && t.completed_at.isNone && decide (pos < t.position)) := by
      rw [List.mem_filter]
      refine ⟨hc, ?_⟩
      simp [hcact, hcpid, hcpos, Option.isNone_iff_eq_none]
    have := selectBest_asc hsel c hcf
    omega

theorem swapTarget_none_up {db : Db} {pid : Nat} {pos : Int} {dir : Int} (hdir : dir < 0)
    (hnone : ∀ u ∈ db.todos, u.completed_at = none → u.project_id = pid →
      ¬ u.position < pos) :
    swapTarget db pid pos dir = none := by
  simp only [swapTarget, if_pos hdir]
  have hfil : db.todos.filter (fun t =>
      t.project_id == pid && t.completed_at.isNone && decide (t.position < pos)) = [] := by
    rw [List.filter_eq_nil_iff]
    intro a ha
    simp [Option.isNone_iff_eq_none]
    intro h1 h2
    have := hnone a ha h2 h1
    omega
  rw [hfil]
  rfl

theorem swapTarget_none_down {db : Db} {pid : Nat} {pos : Int} {dir : Int}
    (hdir : ¬ dir < 0)
    (hnone : ∀ u ∈ db.todos, u.completed_at = none → u.project_id = pid →
      ¬ pos < u.position) :
    swapTarget db pid pos dir = none := by
  simp only [swapTarget, if_neg hdir]
  have hfil : db.todos.filter (fun t =>
      t.project_id == pid && t.completed_at.isNone && decide (pos < t.position)) = [] := by
    rw [List.filter_eq_nil_iff]
    intro a ha
    simp [Option.isNone_iff_eq_none]
    intro h1 h2
    have := hnone a ha h2 h1
    omega
  rw [hfil]
  rfl

theorem applyTxAll_todos_swap (db : Db) (cid sid : Nat) (cpos spos : Int)
    (hne : cid ≠ sid) :
    (applyTxAll db (reorderTxSteps cid cpos sid spos)).todos =
      db.todos.map (fun v =>
        if v.id = cid then { v with position := spos }
        else if v.id = sid then { v with position := cpos } else v) := by
  simp only [applyTxAll, reorderTxSteps, List.foldl_cons, List.foldl_nil, applyStep]
  simp only [List.map_map]
  apply List.map_congr_left
  intro v _
  cases v with
  | mk vid vpid vdescr vdet vcre vcomp vpos =>
    by_cases hc : vid = cid
    · simp [Function.comp, hc, hne, Ne.symm hne]
    · by_cases hs : vid = sid
      · simp [Function.comp, hc, hs, Ne.symm hne]
      · simp [Function.comp, hc, hs]

theorem applyTxAll_frame (db : Db) (steps : List UpdateStep) :
    (applyTxAll db steps).projects = db.projects ∧
    (applyTxAll db steps).nextProjectId = db.nextProjectId ∧
    (applyTxAll db steps).nextTodoId = db.nextTodoId := by
  induction steps generalizing db with
  | nil => exact ⟨rfl, rfl, rfl⟩
  | cons s ss ih =>
    simp only [applyTxAll, List.foldl_cons] at *
    have h := ih (applyStep db s)
    simpa [applyStep] using h

/-- C3: create_todo assigns the new todo the position max + 1, where max
ranges over the positions of the active todos of the project, or position 1
when the project has no active todo; uncomplete_todo assigns the re-activated
todo its position by the same rule, read off the state before the update; in
both cases the todo therefore lands strictly after every currently active
todo of the project, regardless of any pre-completion position. -/
theorem position_assignment_appends_at_end (db : Db) (pid : Nat) (d : Ustr) (now : Nat)
    (id : Nat) (todo : Todo) (hget : getTodo db id = .ok todo) :
    ((activeTodos db pid = [] → (db_create_todo db pid d now).2.position = 1) ∧
     (∀ m, listMaxInt ((activeTodos db pid).map (fun t => t.position)) = some m →
        (db_create_todo db pid d now).2.position = m + 1) ∧
     (∀ t ∈ activeTodos db pid, t.position < (db_create_todo db pid d now).2.position)) ∧
    (∃ db2, db_uncomplete_todo db id = .ok db2 ∧
      ∀ u ∈ db2.todos, u.id = id →
        u.completed_at = none ∧
        (activeTodos db todo.project_id = [] → u.position = 1) ∧
        (∀ m, listMaxInt ((activeTodos db todo.project_id).map (fun t => t.position)) =
          some m → u.position = m + 1) ∧
        (∀ t ∈ activeTodos db todo.project_id, t.position < u.position)) := by
  constructor
  · refine ⟨?_, ?_, ?_⟩
    · intro hempty
      simp [db_create_todo, maxActivePos, hempty, listMaxInt]
    · intro m hm
      simp [db_create_todo, maxActivePos, hm]
    · intro t ht
      have := maxActivePos_ge ht
      simp only [db_create_todo]
      omega
  · refine ⟨{ db with todos := db.todos.map (fun t =>
        if t.id == id then
          { t with completed_at := none, position := maxActivePos db todo.project_id + 1 }
        else t) }, ?_, ?_⟩
    · simp only [db_uncomplete_todo, hget]
    · intro u hu huid
      obtain ⟨a, ha, hfa⟩ := List.mem_map.mp hu
      by_cases haid : a.id = id
      · rw [if_pos (by simpa using haid)] at hfa
        rw [← hfa]
        refine ⟨rfl, ?_, ?_, ?_⟩
        · intro hempty
          simp [maxActivePos, hempty, listMaxInt]
        · intro m hm
          simp [maxActivePos, hm]
        · intro t ht
          have := maxActivePos_ge ht
          simp only
          omega
      · rw [if_neg (by simpa using haid)] at hfa
        rw [← hfa] at huid
        exact absurd huid haid

/-- C4: when an active todo has no swap target in the requested direction
(no active todo of its project lies strictly below it for up, strictly above
it for down), reorder_todo returns success with the store unchanged, so the
list order before equals the list order after; move_todo_up and
move_todo_down are direct calls of reorder_todo with directions -1 and 1. -/
theorem reorder_boundary_silent_noop (db : Db) (id : Nat) (t : Todo) (dir : Int)
    (hget : getTodo db id = .ok t) (hact : t.completed_at = none)
    (hbound : (dir < 0 ∧ ∀ u ∈ db.todos, u.completed_at = none →
        u.project_id = t.project_id → ¬ u.position < t.position) ∨
      (¬ dir < 0 ∧ ∀ u ∈ db.todos, u.completed_at = none →
        u.project_id = t.project_id → ¬ t.position < u.position)) :
    db_reorder_todo db id dir = .ok db := by
  rcases hbound with ⟨hdir, hno⟩ | ⟨hdir, hno⟩
  · have hst := @swapTarget_none_up db t.project_id t.position dir hdir hno
    simp [db_reorder_todo, hget, hact, hst]
  · have hst := @swapTarget_none_down db t.project_id t.position dir hdir hno
    simp [db_reorder_todo, hget, hact, hst]

/-- Witness for position_assignment_appends_at_end at the concrete store
dbOneDone: create in project 1 (one active todo at position 1), uncomplete
the completed todo 1. -/
theorem position_assignment_appends_at_end_witness :
    getTodo dbOneDone 1 = .ok todoDone ∧
    (((activeTodos dbOneDone 1 = [] →
        (db_create_todo dbOneDone 1 [0x64] 5).2.position = 1) ∧
      (∀ m, listMaxInt ((activeTodos dbOneDone 1).map (fun t => t.position)) = some m →
        (db_create_todo dbOneDone 1 [0x64] 5).2.position = m + 1) ∧
      (∀ t ∈ activeTodos dbOneDone 1,
        t.position < (db_create_todo dbOneDone 1 [0x64] 5).2.position)) ∧
     (∃ db2, db_uncomplete_todo dbOneDone 1 = .ok db2 ∧
      ∀ u ∈ db2.todos, u.id = 1 →
        u.completed_at = none ∧
        (activeTodos dbOneDone todoDone.project_id = [] → u.position = 1) ∧
        (∀ m, listMaxInt ((activeTodos dbOneDone todoDone.project_id).map
          (fun t => t.position)) = some m → u.position = m + 1) ∧
        (∀ t ∈ activeTodos dbOneDone todoDone.project_id, t.position < u.position))) :=
  ⟨by decide, position_assignment_appends_at_end dbOneDone 1 [0x64] 5 1 todoDone (by decide)⟩

/-- Witness for reorder_boundary_silent_noop: moving the first todo of the
three-todo scenario store up is a silent no-op. -/
theorem reorder_boundary_silent_noop_witness :
    (getTodo dbScenario 1 = .ok todoA ∧ todoA.completed_at = none ∧
      ((-1 : Int) < 0 ∧ ∀ u ∈ dbScenario.todos, u.completed_at = none →
        u.project_id = todoA.project_id → ¬ u.position < todoA.position)) ∧
    db_reorder_todo dbScenario 1 (-1) = .ok dbScenario :=
  ⟨⟨by decide, by decide, by decide, by decide⟩,
    reorder_boundary_silent_noop dbScenario 1 todoA (-1) (by decide) (by decide)
      (Or.inl ⟨by decide, by decide⟩)⟩

/-- Counterexample to the message C5 quotes: reordering the completed todo 1
of dbOneDone fails with the InvalidOperation message of the source, which is
"Cannot reorder completed todos", not "cannot reorder completed items". -/
theorem reorder_completed_message_counterexample :
    svc_move_todo_up dbOneDone 1 =
      .error (.invalidOperation "Cannot reorder completed todos") ∧
    svc_move_todo_up dbOneDone 1 ≠
      .error (.invalidOperation "cannot reorder completed items") := by
  constructor
  · decide
  · decide

/-- C5 (amended): reorder_todo on a completed todo, for any direction, fails
with the InvalidOperation error whose message is "Cannot reorder completed
todos", and (the bail being raised before any UPDATE) the store is left
untouched; move_todo_up and move_todo_down inherit this as direct calls. -/
theorem reorder_completed_fails_invalid_operation (db : Db) (id : Nat) (t : Todo)
    (τ : Nat) (dir : Int) (hget : getTodo db id = .ok t)
    (hdone : t.completed_at = some τ) :
    db_reorder_todo db id dir =
      .error (.invalidOperation "Cannot reorder completed todos") ∧
    svc_move_todo_up db id =
      .error (.invalidOperation "Cannot reorder completed todos") ∧
    svc_move_todo_down db id =
      .error (.invalidOperation "Cannot reorder completed todos") := by
  have h : db_reorder_todo db id dir =
      .error (.invalidOperation "Cannot reorder completed todos") := by
    simp [db_reorder_todo, hget, hdone]
  have hup : svc_move_todo_up db id =
      .error (.invalidOperation "Cannot reorder completed todos") := by
    simp [svc_move_todo_up, db_reorder_todo, hget, hdone]
  have hdown : svc_move_todo_down db id =
      .error (.invalidOperation "Cannot reorder completed todos") := by
    simp [svc_move_todo_down, db_reorder_todo, hget, hdone]
  exact ⟨h, hup, hdown⟩

/-- Witness for reorder_completed_fails_invalid_operation at the completed
todo 1 of dbOneDone. -/
theorem reorder_completed_fails_invalid_operation_witness :
    (getTodo dbOneDone 1 = .ok todoDone ∧ todoDone.completed_at = some 7) ∧
    (db_reorder_todo dbOneDone 1 1 =
      .error (.invalidOperation "Cannot reorder completed todos") ∧
    svc_move_todo_up dbOneDone 1 =
      .error (.invalidOperation "Cannot reorder completed todos") ∧
    svc_move_todo_down dbOneDone 1 =
      .error (.invalidOperation "Cannot reorder completed todos")) :=
  ⟨⟨by decide, by decide⟩,
    reorder_completed_fails_invalid_operation dbOneDone 1 todoDone 7 1
      (by decide) (by decide)⟩

theorem getTodo_error {db : Db} {id : Nat} (h : getTodo db id = .error .notFound) :
    db.todos.find? (fun t => t.id == id) = none := by
  unfold getTodo at h
  cases hfind : db.todos.find? (fun t => t.id == id) with
  | none => rfl
  | some u => rw [hfind] at h; cases h

set_option maxRecDepth 40000 in
/-- C10: the 255 and 500 limits are enforced on the UTF-8 byte length of the
trimmed string, not on its character count: a 130-character project name of
two-byte characters (260 bytes) and a 251-character todo description of
two-byte characters (502 bytes) are rejected with ValidationError although
their character counts lie well within the limits. -/
theorem byte_length_limit_enforced :
    (trimStr (List.replicate 130 0xA3)).length ≤ 255 ∧
    strByteLen (trimStr (List.replicate 130 0xA3)) > 255 ∧
    svc_create_project emptyDb (List.replicate 130 0xA3) 0 =
      .error (.validationError "Project name is too long (max 255 characters)") ∧
    (trimStr (List.replicate 251 0xE9)).length ≤ 500 ∧
    strByteLen (trimStr (List.replicate 251 0xE9)) > 500 ∧
    svc_create_todo emptyDb 1 (List.replicate 251 0xE9) 0 =
      .error (.validationError "Todo description is too long (max 500 characters)") :=
  ⟨by decide, by decide, by decide, by decide, by decide, by decide⟩

set_option maxRecDepth 40000 in
/-- Counterexample to C9 as stated: a 251-character description of two-byte
characters is nonempty after trimming and its character count is well within
500, yet create_todo rejects it with ValidationError, because the source
compares str::len — the UTF-8 byte length, 502 here — against the limit. -/
theorem description_char_count_counterexample :
    trimStr (List.replicate 251 0xE9) ≠ [] ∧
    (trimStr (List.replicate 251 0xE9)).length ≤ 500 ∧
    svc_create_todo emptyDb 1 (List.replicate 251 0xE9) 0 =
      .error (.validationError "Todo description is too long (max 500 characters)") :=
  ⟨by decide, by decide, by decide⟩

/-- C9 (amended): with length measured in UTF-8 bytes of the trimmed string,
create_todo and update_todo (the latter on an existing todo) fail with
ValidationError exactly when the trimmed description is empty or longer than
500 bytes, and create_project and update_project_name (the latter on an
existing project) likewise with the 255-byte limit on names; when validation
passes and the referenced project exists, create_todo returns the newly
created todo record. -/
theorem validation_byte_length_rule (db : Db) (pid id : Nat) (d nm : Ustr) (now : Nat)
    (t : Todo) (p : Project) (hgt : getTodo db id = .ok t)
    (hgp : getProject db pid = .ok p) :
    ((∃ msg, svc_create_todo db pid d now = .error (.validationError msg)) ↔
      (trimStr d = [] ∨ strByteLen (trimStr d) > 500)) ∧
    ((∃ msg, svc_update_todo db id d = .error (.validationError msg)) ↔
      (trimStr d = [] ∨ strByteLen (trimStr d) > 500)) ∧
    ((∃ msg, svc_create_project db nm now = .error (.validationError msg)) ↔
      (trimStr nm = [] ∨ strByteLen (trimStr nm) > 255)) ∧
    ((∃ msg, svc_update_project_name db pid nm = .error (.validationError msg)) ↔
      (trimStr nm = [] ∨ strByteLen (trimStr nm) > 255)) ∧
    (trimStr d ≠ [] → strByteLen (trimStr d) ≤ 500 →
      svc_create_todo db pid d now = .ok (db_create_todo db pid (trimStr d) now)) := by
  refine ⟨?_, ?_, ?_, ?_, ?_⟩
  · by_cases h1 : trimStr d = []
    · simp [svc_create_todo, h1]
    · by_cases h2 : strByteLen (trimStr d) > 500
      · simp [svc_create_todo, h1, h2]
      · simp [svc_create_todo, h1, h2, hgp]
  · by_cases h1 : trimStr d = []
    · simp [svc_update_todo, hgt, h1]
    · by_cases h2 : strByteLen (trimStr d) > 500
      · simp [svc_update_todo, hgt, h1, h2]
      · simp [svc_update_todo, hgt, h1, h2]
  · by_cases h1 : trimStr nm = []
    · simp [svc_create_project, h1]
    · by_cases h2 : strByteLen (trimStr nm) > 255
      · simp [svc_create_project, h1, h2]
      · simp [svc_create_project, h1, h2]
  · by_cases h1 : trimStr nm = []
    · simp [svc_update_project_name, hgp, h1]
    · by_cases h2 : strByteLen (trimStr nm) > 255
      · simp [svc_update_project_name, hgp, h1, h2]
      · simp [svc_update_project_name, hgp, h1, h2]
  · intro h1 h2
    have h2n : ¬ strByteLen (trimStr d) > 500 := by omega
    simp [svc_create_todo, h1, h2n, hgp]

/-- Witness for validation_byte_length_rule at dbOneDone, with the existing
todo 1 and project 1 and one-character inputs. -/
theorem validation_byte_length_rule_witness :
    (getTodo dbOneDone 1 = .ok todoDone ∧ getProject dbOneDone 1 = .ok projectOne) ∧
    (((∃ msg, svc_create_todo dbOneDone 1 [0x61] 3 = .error (.validationError msg)) ↔
      (trimStr [0x61] = [] ∨ strByteLen (trimStr [0x61]) > 500)) ∧
    ((∃ msg, svc_update_todo dbOneDone 1 [0x61] = .error (.validationError msg)) ↔
      (trimStr [0x61] = [] ∨ strByteLen (trimStr [0x61]) > 500)) ∧
    ((∃ msg, svc_create_project dbOneDone [0x70] 3 = .error (.validationError msg)) ↔
      (trimStr [0x70] = [] ∨ strByteLen (trimStr [0x70]) > 255)) ∧
    ((∃ msg, svc_update_project_name dbOneDone 1 [0x70] = .error (.validationError msg)) ↔
      (trimStr [0x70] = [] ∨ strByteLen (trimStr [0x70]) > 255)) ∧
    (trimStr [0x61] ≠ [] → strByteLen (trimStr [0x61]) ≤ 500 →
      svc_create_todo dbOneDone 1 [0x61] 3 =
        .ok (db_create_todo dbOneDone 1 (trimStr [0x61]) 3))) :=
  ⟨⟨by decide, by decide⟩,
    validation_byte_length_rule dbOneDone 1 1 [0x61] [0x70] 3 todoDone projectOne
      (by decide) (by decide)⟩

/-- Counterexample to C8 as stated: deleting a nonexistent todo id returns
success, not NotFound — the service-layer delete_todo issues the DELETE with
no existence check, and a DELETE matching no row succeeds. -/
theorem delete_todo_missing_ok_counterexample :
    svc_delete_todo emptyDb 1 = .ok emptyDb ∧
    svc_delete_todo emptyDb 1 ≠ .error .notFound :=
  ⟨by decide, by decide⟩

/-- C8 (amended): every mutation operation other than delete_todo fails with
NotFound when its id references no existing record, the existence check (or
the fetch inside the storage operation) preceding any mutation, so the store
is unchanged; delete_todo is the exception: on a nonexistent id it returns
success, and the DELETE matching no row leaves the store unchanged as well. -/
theorem mutations_on_missing_ids (db : Db) (tid pid : Nat)
    (htid : getTodo db tid = .error .notFound)
    (hpid : getProject db pid = .error .notFound)
    (d nm : Ustr) (dt : Option Ustr) (now : Nat)
    (hd : trimStr d ≠ [] ∧ strByteLen (trimStr d) ≤ 500) :
    svc_toggle_todo db tid now = .error .notFound ∧
    svc_update_todo db tid d = .error .notFound ∧
    svc_update_todo_details db tid dt = .error .notFound ∧
    svc_move_todo_up db tid = .error .notFound ∧
    svc_move_todo_down db tid = .error .notFound ∧
    db_uncomplete_todo db tid = .error .notFound ∧
    svc_create_todo db pid d now = .error .notFound ∧
    svc_update_project_name db pid nm = .error .notFound ∧
    svc_update_project_description db pid dt = .error .notFound ∧
    svc_archive_project db pid now = .error .notFound ∧
    svc_unarchive_project db pid = .error .notFound ∧
    svc_delete_project db pid = .error .notFound ∧
    svc_delete_todo db tid = .ok db := by
  have hd2 : ¬ strByteLen (trimStr d) > 500 := by omega
  refine ⟨?_, ?_, ?_, ?_, ?_, ?_, ?_, ?_, ?_, ?_, ?_, ?_, ?_⟩
  · simp [svc_toggle_todo, htid]
  · simp [svc_update_todo, htid]
  · simp [svc_update_todo_details, htid]
  · simp [svc_move_todo_up, db_reorder_todo, htid]
  · simp [svc_move_todo_down, db_reorder_todo, htid]
  · simp [db_uncomplete_todo, htid]
  · simp [svc_create_todo, hd.1, hd2, hpid]
  · simp [svc_update_project_name, hpid]
  · simp [svc_update_project_description, hpid]
  · simp [svc_archive_project, hpid]
  · simp [svc_unarchive_project, hpid]
  · simp [svc_delete_project, hpid]
  · have hfil : db.todos.filter (fun t => !(t.id == tid)) = db.todos := by
      rw [List.filter_eq_self]
      intro a ha
      have hnone := getTodo_error htid
      have := List.find?_eq_none.mp hnone a ha
      simpa using this
    simp only [svc_delete_todo, db_delete_todo, hfil]

/-- Witness for mutations_on_missing_ids at the empty store with ids that
reference nothing. -/
theorem mutations_on_missing_ids_witness :
    (getTodo emptyDb 1 = .error .notFound ∧ getProject emptyDb 1 = .error .notFound ∧
      trimStr [0x61] ≠ [] ∧ strByteLen (trimStr [0x61]) ≤ 500) ∧
    (svc_toggle_todo emptyDb 1 0 = .error .notFound ∧
    svc_update_todo emptyDb 1 [0x61] = .error .notFound ∧
    svc_update_todo_details emptyDb 1 none = .error .notFound ∧
    svc_move_todo_up emptyDb 1 = .error .notFound ∧
    svc_move_todo_down emptyDb 1 = .error .notFound ∧
    db_uncomplete_todo emptyDb 1 = .error .notFound ∧
    svc_create_todo emptyDb 1 [0x61] 0 = .error .notFound ∧
    svc_update_project_name emptyDb 1 [0x70] = .error .notFound ∧
    svc_update_project_description emptyDb 1 none = .error .notFound ∧
    svc_archive_project emptyDb 1 0 = .error .notFound ∧
    svc_unarchive_project emptyDb 1 = .error .notFound ∧
    svc_delete_project emptyDb 1 = .error .notFound ∧
    svc_delete_todo emptyDb 1 = .ok emptyDb) :=
  ⟨⟨by decide, by decide, by decide, by decide⟩,
    mutations_on_missing_ids emptyDb 1 1 (by decide) (by decide) [0x61] [0x70] none 0
      ⟨by decide, by decide⟩⟩

/-- C2: when reorder_todo runs on an active todo and the swap-target query
finds a row — for up the active todo of the project with the greatest
position strictly below the current one, for down the one with the smallest
position strictly above, as swapTarget_some establishes — the operation
succeeds and the resulting store is the input store with exactly the two
positions exchanged and every other row untouched; and in the concrete
scenario of the spec (active todos A, B, C at positions 1, 2, 3), moving C
up yields positions A:1, B:3, C:2 and active list order [A, C, B]. -/
theorem reorder_swaps_exactly_with_adjacent :
    (∀ (db : Db) (id : Nat) (t : Todo) (dir : Int) (uid : Nat) (upos : Int),
      (db.todos.map (fun t => t.id)).Nodup →
      getTodo db id = .ok t → t.completed_at = none →
      swapTarget db t.project_id t.position dir = some (uid, upos) →
      ∃ db2, db_reorder_todo db id dir = .ok db2 ∧
        db2.todos = db.todos.map (fun v =>
          if v.id = t.id then { v with position := upos }
          else if v.id = uid then { v with position := t.position } else v)) ∧
    (svc_move_todo_up dbScenario 3 = .ok dbScenarioAfter ∧
     db_list_todos dbScenarioAfter 1 false = [todoA, todoCMoved, todoBMoved]) := by
  constructor
  · intro db id t dir uid upos hnd hget hact hsw
    obtain ⟨u, humem, huid, hupos, hupid, huact, hup, hdown⟩ := swapTarget_some hsw
    have htmem := (getTodo_ok hget).1
    have hposne : upos ≠ t.position := by
      by_cases hdir : dir < 0
      · have := (hup hdir).1
        omega
      · have := (hdown hdir).1
        omega
    have hne : t.id ≠ uid := by
      intro heq
      have : t = u := todos_id_inj hnd htmem humem (by rw [heq, huid])
      rw [this] at hposne
      exact hposne hupos.symm
    refine ⟨applyTxAll db (reorderTxSteps t.id t.position uid upos), ?_, ?_⟩
    · simp [db_reorder_todo, hget, hact, hsw]
    · exact applyTxAll_todos_swap db t.id uid t.position upos hne
  · refine ⟨by decide, ?_⟩
    have hact : activeTodos dbScenarioAfter 1 = [todoA, todoBMoved, todoCMoved] := by decide
    simp [db_list_todos, hact, List.mergeSort, todoA, todoBMoved, todoCMoved, todoB, todoC]

/-- Witness for the universally quantified part of
reorder_swaps_exactly_with_adjacent: the scenario store, moving todo C (id 3)
up swaps it with todo B (id 2, position 2). -/
theorem reorder_swaps_exactly_with_adjacent_witness :
    ((dbScenario.todos.map (fun t => t.id)).Nodup ∧
      getTodo dbScenario 3 = .ok todoC ∧ todoC.completed_at = none ∧
      swapTarget dbScenario todoC.project_id todoC.position (-1) = some (2, 2)) ∧
    (∃ db2, db_reorder_todo dbScenario 3 (-1) = .ok db2 ∧
      db2.todos = dbScenario.todos.map (fun v =>
        if v.id = todoC.id then { v with position := 2 }
        else if v.id = 2 then { v with position := todoC.position } else v)) :=
  ⟨⟨by decide, by decide, by decide, by decide⟩,
    reorder_swaps_exactly_with_adjacent.1 dbScenario 3 todoC (-1) 2 2
      (by decide) (by decide) (by decide) (by decide)⟩

/-- Counterexample to the step order C6 states: moving todo 2 of dbTwoActive
up traces the transaction [source to -1, source's original position onto the
target, target's old position onto the source], which differs from the list
the claim describes, where the target's old position is written onto the
source before the source's original position is written onto the target. -/
theorem reorder_tx_step_order_counterexample :
    reorderTrace dbTwoActive 2 (-1) = some (reorderTxSteps 2 2 1 1) ∧
    reorderTxSteps 2 2 1 1 ≠ reorderTxStepsSpecOrder 2 2 1 1 ∧
    reorderTxSteps 2 2 1 1 =
      [{ todoId := 2, newPos := -1 }, { todoId := 1, newPos := 2 },
       { todoId := 2, newPos := 1 }] :=
  ⟨by decide, by decide, by decide⟩

/-- C6 (amended): reorder_todo performs the swap inside one transaction whose
three UPDATE statements are, in order: source to the out-of-range sentinel
-1, the source's original position onto the target, the target's old
position onto the source; the committed state carries exactly the exchanged
positions (the sentinel is overwritten before commit), and under the
all-or-nothing transaction semantics a failure at any step or at the commit
rolls everything back, so the persisted state is either the input state or
the fully swapped state — never a state with only one of the two positions
written. -/
theorem reorder_tx_atomic_swap (db : Db) (id : Nat) (t : Todo) (dir : Int)
    (uid : Nat) (upos : Int) (hnd : (db.todos.map (fun t => t.id)).Nodup)
    (hget : getTodo db id = .ok t) (hact : t.completed_at = none)
    (hsw : swapTarget db t.project_id t.position dir = some (uid, upos)) :
    reorderTrace db id dir = some (reorderTxSteps t.id t.position uid upos) ∧
    db_reorder_todo db id dir =
      .ok (applyTxAll db (reorderTxSteps t.id t.position uid upos)) ∧
    (applyTxAll db (reorderTxSteps t.id t.position uid upos)).todos =
      db.todos.map (fun v =>
        if v.id = t.id then { v with position := upos }
        else if v.id = uid then { v with position := t.position } else v) ∧
    (∀ failAt,
      persistedAfterTx db (reorderTxSteps t.id t.position uid upos) failAt = db ∨
      persistedAfterTx db (reorderTxSteps t.id t.position uid upos) failAt =
        applyTxAll db (reorderTxSteps t.id t.position uid upos)) ∧
    (∀ i, i ≤ (reorderTxSteps t.id t.position uid upos).length →
      persistedAfterTx db (reorderTxSteps t.id t.position uid upos) (some i) = db) := by
  obtain ⟨u, humem, huid, hupos, hupid, huact, hup, hdown⟩ := swapTarget_some hsw
  have htmem := (getTodo_ok hget).1
  have hposne : upos ≠ t.position := by
    by_cases hdir : dir < 0
    · have := (hup hdir).1
      omega
    · have := (hdown hdir).1
      omega
  have hne : t.id ≠ uid := by
    intro heq
    have : t = u := todos_id_inj hnd htmem humem (by rw [heq, huid])
    rw [this] at hposne
    exact hposne hupos.symm
  refine ⟨?_, ?_, ?_, ?_, ?_⟩
  · simp [reorderTrace, hget, hact, hsw]
  · simp [db_reorder_todo, hget, hact, hsw]
  · exact applyTxAll_todos_swap db t.id uid t.position upos hne
  · intro failAt
    cases failAt with
    | none => right; simp [persistedAfterTx, runTx]
    | some i =>
      by_cases hi : i ≤ (reorderTxSteps t.id t.position uid upos).length
      · left; simp [persistedAfterTx, runTx, hi]
      · right; simp [persistedAfterTx, runTx, hi]
  · intro i hi
    simp [persistedAfterTx, runTx, hi]

/-- Witness for reorder_tx_atomic_swap: the two-todo store, moving todo 2 up
swaps with todo 1. -/
theorem reorder_tx_atomic_swap_witness :
    ((dbTwoActive.todos.map (fun t => t.id)).Nodup ∧
      getTodo dbTwoActive 2 = .ok todoB ∧ todoB.completed_at = none ∧
      swapTarget dbTwoActive todoB.project_id todoB.position (-1) = some (1, 1)) ∧
    (reorderTrace dbTwoActive 2 (-1) =
      some (reorderTxSteps todoB.id todoB.position 1 1) ∧
    db_reorder_todo dbTwoActive 2 (-1) =
      .ok (applyTxAll dbTwoActive (reorderTxSteps todoB.id todoB.position 1 1)) ∧
    (applyTxAll dbTwoActive (reorderTxSteps todoB.id todoB.position 1 1)).todos =
      dbTwoActive.todos.map (fun v =>
        if v.id = todoB.id then { v with position := 1 }
        else if v.id = 1 then { v with position := todoB.position } else v) ∧
    (∀ failAt,
      persistedAfterTx dbTwoActive (reorderTxSteps todoB.id todoB.position 1 1) failAt =
        dbTwoActive ∨
      persistedAfterTx dbTwoActive (reorderTxSteps todoB.id todoB.position 1 1) failAt =
        applyTxAll dbTwoActive (reorderTxSteps todoB.id todoB.position 1 1)) ∧
    (∀ i, i ≤ (reorderTxSteps todoB.id todoB.position 1 1).length →
      persistedAfterTx dbTwoActive (reorderTxSteps todoB.id todoB.position 1 1)
        (some i) = dbTwoActive)) :=
  ⟨⟨by decide, by decide, by decide, by decide⟩,
    reorder_tx_atomic_swap dbTwoActive 2 todoB (-1) 1 1
      (by decide) (by decide) (by decide) (by decide)⟩

theorem listLE_trans : ∀ a b c : Todo, listLE a b → listLE b c → listLE a c := by
  intro a b c hab hbc
  cases hca : a.completed_at <;> cases hcb : b.completed_at <;> cases hcc : c.completed_at <;>
    simp_all [listLE] <;> omega

theorem listLE_total : ∀ a b : Todo, listLE a b || listLE b a := by
  intro a b
  cases hca : a.completed_at <;> cases hcb : b.completed_at <;> simp [listLE, hca, hcb] <;>
    omega

theorem posLE_trans : ∀ a b c : Todo, (decide (a.position ≤ b.position) : Bool) →
    (decide (b.position ≤ c.position) : Bool) → (decide (a.position ≤ c.position) : Bool) := by
  intro a b c hab hbc
  simp_all
  omega

theorem posLE_total : ∀ a b : Todo,
    (decide (a.position ≤ b.position) || decide (b.position ≤ a.position)) := by
  intro a b
  simp
  omega

/-- C7: list_todos with include_completed = false returns exactly the active
todos of the project in ascending position order; with include_completed =
true it returns exactly the todos of the project with no completed todo
anywhere before an active one, the active ones in ascending position order,
and the completed ones in descending completion-time order. -/
theorem list_todos_ordering (db : Db) (pid : Nat) :
    (db_list_todos db pid false).Perm (activeTodos db pid) ∧
    (db_list_todos db pid false).Pairwise (fun a b => a.position ≤ b.position) ∧
    (db_list_todos db pid true).Perm
      (db.todos.filter (fun t => t.project_id == pid)) ∧
    (db_list_todos db pid true).Pairwise
      (fun a b => ¬(a.completed_at ≠ none ∧ b.completed_at = none)) ∧
    ((db_list_todos db pid true).filter (fun t => t.completed_at.isNone)).Pairwise
      (fun a b => a.position ≤ b.position) ∧
    ((db_list_todos db pid true).filter (fun t => t.completed_at.isSome)).Pairwise
      (fun a b => ∀ x y, a.completed_at = some x → b.completed_at = some y → y ≤ x) := by
  have hfalse : db_list_todos db pid false =
      (activeTodos db pid).mergeSort (fun a b => decide (a.position ≤ b.position)) := rfl
  have htrue : db_list_todos db pid true =
      (db.todos.filter (fun t => t.project_id == pid)).mergeSort listLE := rfl
  have hsorted :=
    List.sorted_mergeSort listLE_trans listLE_total
      (db.todos.filter (fun t => t.project_id == pid))
  refine ⟨?_, ?_, ?_, ?_, ?_, ?_⟩
  · rw [hfalse]
    exact List.mergeSort_perm _ _
  · rw [hfalse]
    have := List.sorted_mergeSort posLE_trans posLE_total (activeTodos db pid)
    exact this.imp (fun h => of_decide_eq_true h)
  · rw [htrue]
    exact List.mergeSort_perm _ _
  · rw [htrue]
    refine hsorted.imp ?_
    intro a b hab hcon
    obtain ⟨h1, h2⟩ := hcon
    cases hca : a.completed_at with
    | none => exact h1 hca
    | some x => simp [listLE, hca, h2] at hab
  · rw [htrue]
    refine List.Pairwise.imp_of_mem ?_ (hsorted.filter _)
    intro a b ha hb hab
    have ha2 := (List.mem_filter.mp ha).2
    have hb2 := (List.mem_filter.mp hb).2
    rw [Option.isNone_iff_eq_none] at ha2 hb2
    simp [listLE, ha2, hb2] at hab
    exact hab
  · rw [htrue]
    refine List.Pairwise.imp_of_mem ?_ (hsorted.filter _)
    intro a b ha hb hab
    intro x y hx hy
    simp [listLE, hx, hy] at hab
    exact hab

theorem storeInv_empty : StoreInv emptyDb := by
  refine ⟨⟨?_, ?_⟩, ?_, ?_, ?_⟩ <;> simp [IdsOk, PosOk, emptyDb]

theorem storeInv_create (db : Db) (pid : Nat) (d : Ustr) (now : Nat)
    (h : StoreInv db) : StoreInv (db_create_todo db pid d now).1 := by
  obtain ⟨⟨hnd, hbound⟩, hpos, hzero, hdist⟩ := h
  have htodos : (db_create_todo db pid d now).1.todos =
      db.todos ++
        [{ id := db.nextTodoId, project_id := pid, description := d,
           details := none, created_at := now, completed_at := none,
           position := maxActivePos db pid + 1 }] := rfl
  refine ⟨⟨?_, ?_⟩, ?_, ?_, ?_⟩
  · rw [htodos, List.map_append, List.nodup_append]
    refine ⟨hnd, List.nodup_singleton _, ?_⟩
    intro a ha hb
    simp only [List.map_cons, List.map_nil, List.mem_singleton] at hb
    obtain ⟨t, ht, hta⟩ := List.mem_map.mp ha
    have := hbound t ht
    omega
  · intro t ht
    rw [htodos] at ht
    show t.id < db.nextTodoId + 1
    rcases List.mem_append.mp ht with h | h
    · have := hbound t h
      omega
    · rw [List.mem_singleton] at h
      subst h
      show db.nextTodoId < db.nextTodoId + 1
      omega
  · intro t ht hact
    rw [htodos] at ht
    rcases List.mem_append.mp ht with h | h
    · exact hpos t h hact
    · rw [List.mem_singleton] at h
      subst h
      show 0 < maxActivePos db pid + 1
      have := @maxActivePos_nonneg db pid hpos
      omega
  · intro t ht hcomp
    rw [htodos] at ht
    rcases List.mem_append.mp ht with h | h
    · exact hzero t h hcomp
    · rw [List.mem_singleton] at h
      subst h
      exact absurd rfl hcomp
  · intro t ht u hu hact huact hproj hne
    rw [htodos] at ht hu
    rcases List.mem_append.mp ht with h1 | h1 <;> rcases List.mem_append.mp hu with h2 | h2
    · exact hdist t h1 u h2 hact huact hproj hne
    · rw [List.mem_singleton] at h2
      subst h2
      have htmem : t ∈ activeTodos db pid := mem_activeTodos.mpr ⟨h1, hproj, hact⟩
      have := maxActivePos_ge htmem
      show t.position ≠ maxActivePos db pid + 1
      omega
    · rw [List.mem_singleton] at h1
      subst h1
      have humem : u ∈ activeTodos db pid := mem_activeTodos.mpr ⟨h2, hproj.symm, huact⟩
      have := maxActivePos_ge humem
      show maxActivePos db pid + 1 ≠ u.position
      omega
    · rw [List.mem_singleton] at h1 h2
      subst h1
      subst h2
      exact absurd rfl hne

theorem storeInv_complete (db : Db) (id now : Nat) (h : StoreInv db) :
    StoreInv (db_complete_todo db id now) := by
  obtain ⟨⟨hnd, hbound⟩, hpos, hzero, hdist⟩ := h
  have htodos : (db_complete_todo db id now).todos = db.todos.map (fun t =>
      if t.id == id then { t with completed_at := some now, position := 0 } else t) := rfl
  have hid : ∀ t : Todo, ((fun t =>
      if t.id == id then { t with completed_at := some now, position := 0 } else t) t).id
        = t.id := by
    intro t
    by_cases hb : t.id == id <;> simp [hb]
  refine ⟨⟨?_, ?_⟩, ?_, ?_, ?_⟩
  · rw [htodos, ids_map_of_id_preserving _ _ hid]
    exact hnd
  · intro t ht
    rw [htodos] at ht
    obtain ⟨a, ha, hfa⟩ := List.mem_map.mp ht
    have hta : t.id = a.id := by rw [← hfa]; exact hid a
    show t.id < db.nextTodoId
    rw [hta]
    exact hbound a ha
  · intro t ht hact
    rw [htodos] at ht
    obtain ⟨a, ha, hfa⟩ := List.mem_map.mp ht
    by_cases hb : a.id == id
    · rw [if_pos hb] at hfa
      rw [← hfa] at hact
      cases hact
    · rw [if_neg hb] at hfa
      rw [← hfa] at hact ⊢
      exact hpos a ha hact
  · intro t ht hcomp
    rw [htodos] at ht
    obtain ⟨a, ha, hfa⟩ := List.mem_map.mp ht
    by_cases hb : a.id == id
    · rw [if_pos hb] at hfa
      rw [← hfa]
    · rw [if_neg hb] at hfa
      rw [← hfa] at hcomp ⊢
      exact hzero a ha hcomp
  · intro t ht u hu hact huact hproj hne
    rw [htodos] at ht hu
    obtain ⟨a, ha, hfa⟩ := List.mem_map.mp ht
    obtain ⟨b, hbm, hfb⟩ := List.mem_map.mp hu
    by_cases h1 : a.id == id
    · rw [if_pos h1] at hfa
      rw [← hfa] at hact
      cases hact
    · by_cases h2 : b.id == id
      · rw [if_pos h2] at hfb
        rw [← hfb] at huact
        cases huact
      · rw [if_neg h1] at hfa
        rw [if_neg h2] at hfb
        rw [← hfa] at hact hproj hne ⊢
        rw [← hfb] at huact hproj hne ⊢
        exact hdist a ha b hbm hact huact hproj hne

theorem storeInv_uncomplete (db : Db) (id : Nat) (h : StoreInv db) (db2 : Db)
    (hok : db_uncomplete_todo db id = .ok db2) : StoreInv db2 := by
  obtain ⟨⟨hnd, hbound⟩, hpos, hzero, hdist⟩ := h
  cases hget : getTodo db id with
  | error e =>
    unfold db_uncomplete_todo at hok
    rw [hget] at hok
    cases hok
  | ok todo =>
    unfold db_uncomplete_todo at hok
    rw [hget] at hok
    injection hok with hdb2
    subst hdb2
    obtain ⟨htodomem, htodoid⟩ := getTodo_ok hget
    have hid : ∀ t : Todo, ((fun t : Todo =>
        if t.id == id then
          { t with completed_at := none, position := maxActivePos db todo.project_id + 1 }
        else t) t).id = t.id := by
      intro t
      by_cases hb : t.id == id <;> simp [hb]
    refine ⟨⟨?_, ?_⟩, ?_, ?_, ?_⟩
    · show ((db.todos.map (fun t : Todo =>
          if t.id == id then
            { t with completed_at := none, position := maxActivePos db todo.project_id + 1 }
          else t)).map (fun t => t.id)).Nodup
      rw [ids_map_of_id_preserving _ _ hid]
      exact hnd
    · intro t ht
      obtain ⟨a, ha, hfa⟩ := List.mem_map.mp ht
      have hta : t.id = a.id := by rw [← hfa]; exact hid a
      show t.id < db.nextTodoId
      rw [hta]
      exact hbound a ha
    · intro t ht hact
      obtain ⟨a, ha, hfa⟩ := List.mem_map.mp ht
      by_cases hb : a.id == id
      · rw [if_pos hb] at hfa
        rw [← hfa]
        show 0 < maxActivePos db todo.project_id + 1
        have := @maxActivePos_nonneg db todo.project_id hpos
        omega
      · rw [if_neg hb] at hfa
        rw [← hfa] at hact ⊢
        exact hpos a ha hact
    · intro t ht hcomp
      obtain ⟨a, ha, hfa⟩ := List.mem_map.mp ht
      by_cases hb : a.id == id
      · rw [if_pos hb] at hfa
        rw [← hfa] at hcomp
        exact absurd rfl hcomp
      · rw [if_neg hb] at hfa
        rw [← hfa] at hcomp ⊢
        exact hzero a ha hcomp
    · intro t ht u hu hact huact hproj hne
      obtain ⟨a, ha, hfa⟩ := List.mem_map.mp ht
      obtain ⟨b, hbm, hfb⟩ := List.mem_map.mp hu
      by_cases h1 : a.id == id
      · by_cases h2 : b.id == id
        · exfalso
          apply hne
          have hta : t.id = a.id := by rw [← hfa]; exact hid a
          have htb : u.id = b.id := by rw [← hfb]; exact hid b
          have ha1 : a.id = id := by simpa using h1
          have hb1 : b.id = id := by simpa using h2
          rw [hta, htb, ha1, hb1]
        · rw [if_pos h1] at hfa
          rw [if_neg h2] at hfb
          have hatodo : a = todo := by
            have ha1 : a.id = id := by simpa using h1
            exact todos_id_inj hnd ha htodomem (by rw [ha1, htodoid])
          have hproj2 : b.project_id = todo.project_id := by
            rw [← hfa, ← hfb] at hproj
            rw [← hproj, ← hatodo]
          have hbact : b.completed_at = none := by rw [← hfb] at huact; exact huact
          have hbmem : b ∈ activeTodos db todo.project_id :=
            mem_activeTodos.mpr ⟨hbm, hproj2, hbact⟩
          have := maxActivePos_ge hbmem
          rw [← hfa, ← hfb]
          show maxActivePos db todo.project_id + 1 ≠ b.position
          omega
      · by_cases h2 : b.id == id
        · rw [if_neg h1] at hfa
          rw [if_pos h2] at hfb
          have hbtodo : b = todo := by
            have hb1 : b.id = id := by simpa using h2
            exact todos_id_inj hnd hbm htodomem (by rw [hb1, htodoid])
          have hproj2 : a.project_id = todo.project_id := by
            rw [← hfa, ← hfb] at hproj
            rw [hproj, ← hbtodo]
          have haact : a.completed_at = none := by rw [← hfa] at hact; exact hact
          have hamem : a ∈ activeTodos db todo.project_id :=
            mem_activeTodos.mpr ⟨ha, hproj2, haact⟩
          have := maxActivePos_ge hamem
          rw [← hfa, ← hfb]
          show a.position ≠ maxActivePos db todo.project_id + 1
          omega
        · rw [if_neg h1] at hfa
          rw [if_neg h2] at hfb
          rw [← hfa] at hact hproj hne ⊢
          rw [← hfb] at huact hproj hne ⊢
          exact hdist a ha b hbm hact huact hproj hne

theorem storeInv_delete (db : Db) (id : Nat) (h : StoreInv db) :
    StoreInv (db_delete_todo db id) := by
  obtain ⟨⟨hnd, hbound⟩, hpos, hzero, hdist⟩ := h
  have hsub : List.Sublist (db_delete_todo db id).todos db.todos := List.filter_sublist _
  refine ⟨⟨?_, ?_⟩, ?_, ?_, ?_⟩
  · exact List.Nodup.sublist (List.Sublist.map _ hsub) hnd
  · intro t ht
    exact hbound t (hsub.subset ht)
  · intro t ht hact
    exact hpos t (hsub.subset ht) hact
  · intro t ht hcomp
    exact hzero t (hsub.subset ht) hcomp
  · intro t ht u hu hact huact hproj hne
    exact hdist t (hsub.subset ht) u (hsub.subset hu) hact huact hproj hne

theorem storeInv_reorder (db : Db) (id : Nat) (dir : Int) (h : StoreInv db) (db2 : Db)
    (hok : db_reorder_todo db id dir = .ok db2) : StoreInv db2 := by
  obtain ⟨⟨hnd, hbound⟩, hpos, hzero, hdist⟩ := h
  cases hget : getTodo db id with
  | error e =>
    unfold db_reorder_todo at hok
    rw [hget] at hok
    cases hok
  | ok t =>
    simp only [db_reorder_todo, hget] at hok
    by_cases hcomp : t.completed_at.isSome
    · rw [if_pos hcomp] at hok
      cases hok
    · rw [if_neg hcomp] at hok
      have hact : t.completed_at = none := by
        cases hc : t.completed_at with
        | none => rfl
        | some x => rw [hc] at hcomp; exact absurd rfl hcomp
      cases hsw : swapTarget db t.project_id t.position dir with
      | none =>
        rw [hsw] at hok
        injection hok with h2
        subst h2
        exact ⟨⟨hnd, hbound⟩, hpos, hzero, hdist⟩
      | some pr =>
        obtain ⟨uid, upos⟩ := pr
        rw [hsw] at hok
        injection hok with h2
        subst h2
        obtain ⟨u0, humem, huid, hupos, hupid, huact, hup, hdown⟩ := swapTarget_some hsw
        have htmem := (getTodo_ok hget).1
        have hposne : upos ≠ t.position := by
          by_cases hdir : dir < 0
          · have := (hup hdir).1
            omega
          · have := (hdown hdir).1
            omega
        have hne : t.id ≠ uid := by
          intro heq
          have : t = u0 := todos_id_inj hnd htmem humem (by rw [heq, huid])
          rw [this] at hposne
          exact hposne hupos.symm
        have htodos2 : (applyTxAll db (reorderTxSteps t.id t.position uid upos)).todos =
            db.todos.map (fun v =>
              if v.id = t.id then { v with position := upos }
              else if v.id = uid then { v with position := t.position } else v) :=
          applyTxAll_todos_swap db t.id uid t.position upos hne
        have hnext : (applyTxAll db (reorderTxSteps t.id t.position uid upos)).nextTodoId =
            db.nextTodoId := (applyTxAll_frame db _).2.2
        have hchar : ∀ v ∈ (applyTxAll db (reorderTxSteps t.id t.position uid upos)).todos,
            v = { t with position := upos } ∨ v = { u0 with position := t.position } ∨
            (v ∈ db.todos ∧ v.id ≠ t.id ∧ v.id ≠ uid) := by
          intro v hv
          rw [htodos2] at hv
          obtain ⟨a, ha, hfa⟩ := List.mem_map.mp hv
          by_cases h1 : a.id = t.id
          · left
            have hat : a = t := todos_id_inj hnd ha htmem h1
            rw [if_pos h1] at hfa
            rw [← hfa, hat]
          · by_cases h2 : a.id = uid
            · right; left
              have hau : a = u0 := todos_id_inj hnd ha humem (by rw [h2, huid])
              rw [if_neg h1, if_pos h2] at hfa
              rw [← hfa, hau]
            · right; right
              rw [if_neg h1, if_neg h2] at hfa
              rw [← hfa]
              exact ⟨ha, h1, h2⟩
        have hidF : ∀ v : Todo, ((fun v : Todo =>
            if v.id = t.id then { v with position := upos }
            else if v.id = uid then { v with position := t.position } else v) v).id
              = v.id := by
          intro v
          show (if v.id = t.id then ({ v with position := upos } : Todo)
            else if v.id = uid then { v with position := t.position } else v).id = v.id
          by_cases h1 : v.id = t.id
          · rw [if_pos h1]
          · rw [if_neg h1]
            by_cases h2 : v.id = uid
            · rw [if_pos h2]
            · rw [if_neg h2]
        have hTproj : ({ t with position := upos } : Todo).project_id = t.project_id := rfl
        have hUproj : ({ u0 with position := t.position } : Todo).project_id =
            u0.project_id := rfl
        have hTpos : ({ t with position := upos } : Todo).position = upos := rfl
        have hUpos : ({ u0 with position := t.position } : Todo).position = t.position := rfl
        refine ⟨⟨?_, ?_⟩, ?_, ?_, ?_⟩
        · show ((applyTxAll db (reorderTxSteps t.id t.position uid upos)).todos.map
            (fun t => t.id)).Nodup
          rw [htodos2, ids_map_of_id_preserving _ _ hidF]
          exact hnd
        · intro v hv
          show v.id < (applyTxAll db (reorderTxSteps t.id t.position uid upos)).nextTodoId
          rw [hnext]
          rcases hchar v hv with h | h | ⟨hmem, hx1, hx2⟩
          · subst h
            show t.id < db.nextTodoId
            exact hbound t htmem
          · subst h
            show u0.id < db.nextTodoId
            exact hbound u0 humem
          · exact hbound v hmem
        · intro v hv hvact
          rcases hchar v hv with h | h | ⟨hmem, hx1, hx2⟩
          · subst h
            show 0 < upos
            have := hpos u0 humem huact
            omega
          · subst h
            show 0 < t.position
            exact hpos t htmem hact
          · exact hpos v hmem hvact
        · intro v hv hvcomp
          rcases hchar v hv with h | h | ⟨hmem, hx1, hx2⟩
          · subst h
            exact absurd hact hvcomp
          · subst h
            exact absurd huact hvcomp
          · exact hzero v hmem hvcomp
        · intro v hv w hw hvact hwact hproj hvwne
          rcases hchar v hv with h1 | h1 | ⟨hmem1, hne1t, hne1u⟩ <;>
            rcases hchar w hw with h2 | h2 | ⟨hmem2, hne2t, hne2u⟩
          · subst h1
            subst h2
            exact absurd rfl hvwne
          · subst h1
            subst h2
            rw [hTpos, hUpos]
            exact hposne
          · subst h1
            rw [hTproj] at hproj
            rw [hTpos]
            have hwne : u0.id ≠ w.id := fun heq => hne2u (heq ▸ huid)
            have hd := hdist u0 humem w hmem2 huact hwact (hupid.trans hproj) hwne
            rw [← hupos]
            exact hd
          · subst h1
            subst h2
            rw [hUpos, hTpos]
            exact hposne.symm
          · subst h1
            subst h2
            exact absurd rfl hvwne
          · subst h1
            rw [hUproj] at hproj
            rw [hUpos]
            have hwne : t.id ≠ w.id := fun heq => hne2t heq.symm
            have htw : t.project_id = w.project_id := by
              rw [← hupid]
              exact hproj
            have hd := hdist t htmem w hmem2 hact hwact htw hwne
            exact hd
          · subst h2
            rw [hTproj] at hproj
            rw [hTpos]
            have hvne : v.id ≠ u0.id := fun heq => hne1u (heq.trans huid)
            have hvu : v.project_id = u0.project_id := hproj.trans hupid.symm
            have hd := hdist v hmem1 u0 humem hvact huact hvu hvne
            rw [← hupos]
            exact hd
          · subst h2
            rw [hUproj] at hproj
            rw [hUpos]
            have hvt : v.project_id = t.project_id := hproj.trans hupid
            have hd := hdist v hmem1 t htmem hvact hact hvt hne1t
            exact hd
          · exact hdist v hmem1 w hmem2 hvact hwact hproj hvwne

theorem storeInv_applyOp (db : Db) (op : Op) (h : StoreInv db) :
    StoreInv (applyOp db op) := by
  cases op with
  | createTodo pid d now => exact storeInv_create db pid d now h
  | completeTodo id now => exact storeInv_complete db id now h
  | uncompleteTodo id =>
    show StoreInv (match db_uncomplete_todo db id with
                   | .ok db2 => db2
                   | .error _ => db)
    cases hu : db_uncomplete_todo db id with
    | ok db2 => exact storeInv_uncomplete db id h db2 hu
    | error e => exact h
  | reorderTodo id dir =>
    show StoreInv (match db_reorder_todo db id dir with
                   | .ok db2 => db2
                   | .error _ => db)
    cases hr : db_reorder_todo db id dir with
    | ok db2 => exact storeInv_reorder db id dir h db2 hr
    | error e => exact h
  | deleteTodo id => exact storeInv_delete db id h

theorem storeInv_applyOps (db : Db) (ops : List Op) (h : StoreInv db) :
    StoreInv (applyOps db ops) := by
  induction ops generalizing db with
  | nil => exact h
  | cons op rest ih => exact ih (applyOp db op) (storeInv_applyOp db op h)

/-- C1: starting from the empty store, after any sequence of create_todo,
complete_todo, uncomplete_todo, reorder_todo and delete_todo operations with
arbitrary arguments, within every project the active todos (completed_at =
NULL) carry pairwise distinct positive integer positions, and every todo
with completed_at set carries the sentinel position 0. -/
theorem ops_preserve_position_discipline (ops : List Op) :
    (∀ t ∈ (applyOps emptyDb ops).todos, t.completed_at = none → 0 < t.position) ∧
    (∀ t ∈ (applyOps emptyDb ops).todos, t.completed_at ≠ none → t.position = 0) ∧
    (∀ t ∈ (applyOps emptyDb ops).todos, ∀ u ∈ (applyOps emptyDb ops).todos,
      t.completed_at = none → u.completed_at = none → t.project_id = u.project_id →
      t ≠ u → t.position ≠ u.position) := by
  obtain ⟨⟨hnd, hbound⟩, hpos, hzero, hdist⟩ := storeInv_applyOps emptyDb ops storeInv_empty
  refine ⟨hpos, hzero, ?_⟩
  intro t ht u hu hact huact hproj hne
  have hidne : t.id ≠ u.id := by
    intro hideq
    exact hne (todos_id_inj hnd ht hu hideq)
  exact hdist t ht u hu hact huact hproj hidne
